import Mathlib

/-!
Verification of the Mission Control Center (MCC) budget-constrained task
orchestrator design against its specification.

The backend core (usage ledger, budget registry, admission controller,
task state machine, orchestration router) is present in the repository as
design documents (docs/TECH_SPECS.md, docs/DB_SCHEMA.md, docs/API_SPEC.md);
its executable code is not yet implemented, so those components are
modelled from the specification text.  The frontend message handling is
implemented (frontend/src/pages/ProjectPage.tsx) and is embedded directly
from that source.
-/

namespace MCC

/-! ## Frontend: ProjectPage message handling (from ProjectPage.tsx) -/

/-- The frontend `Message` record, fields as in frontend/src/types.ts and
as constructed in ProjectPage.tsx. -/
structure Message where
  id : String
  conversation_id : String
  author_type : String
  user_id : Option String
  agent_id : Option String
  content : String
  tokens_in : Nat
  tokens_out : Nat
  cost_usd : String
  model_used : Option String
  created_at : String
  deriving DecidableEq, Repr

/-- The websocket `message` event payload, as destructured in the
`socket.on("message", ...)` handler of ProjectPage.tsx. -/
structure MessageEvent where
  id : String
  conversation_id : String
  author_type : String
  agent_id : Option String
  content : String
  created_at : String
  deriving DecidableEq, Repr

/-- The `Message` value the socket handler constructs from an event
(ProjectPage.tsx lines 67-79). -/
def msgOfEvent (data : MessageEvent) : Message :=
  { id := data.id
    conversation_id := data.conversation_id
    author_type := data.author_type
    user_id := none
    agent_id := data.agent_id
    content := data.content
    tokens_in := 0
    tokens_out := 0
    cost_usd := "0"
    model_used := none
    created_at := data.created_at }

/-- The `socket.on("message", ...)` handler of ProjectPage.tsx:
drop the event unless its `conversation_id` equals `activeIdRef.current`
(a `string | null`), then drop it if a message with the same id is already
in the list, otherwise append the constructed message at the end. -/
def onSocketMessage (activeId : Option String) (data : MessageEvent)
    (prev : List Message) : List Message :=
  if some data.conversation_id ≠ activeId then prev
  else if prev.any (fun m => m.id = data.id) then prev
  else prev ++ [msgOfEvent data]

/-- `handleMessageSent` of ProjectPage.tsx: append the locally sent
message unless a message with the same id is already in the list. -/
def handleMessageSent (msg : Message) (prev : List Message) : List Message :=
  if prev.any (fun m => m.id = msg.id) then prev
  else prev ++ [msg]

end MCC

namespace MCC

/-! ## Theorems for the frontend claims -/

lemma nodup_ids_append (prev : List Message) (m : Message)
    (hn : (prev.map Message.id).Nodup)
    (hm : prev.any (fun x => x.id = m.id) = false) :
    ((prev ++ [m]).map Message.id).Nodup := by
  rw [List.map_append, List.nodup_append]
  refine ⟨hn, List.nodup_singleton _, ?_⟩
  intro a ha hb
  simp only [List.map_singleton, List.mem_singleton] at hb
  subst hb
  simp only [List.mem_map] at ha
  obtain ⟨x, hx, hxe⟩ := ha
  have := List.any_eq_false.mp hm x hx
  simp only [decide_eq_true_eq] at this
  exact this hxe

/-- Claim C9: delivering a message event whose id already appears in the
current message list leaves the list unchanged, both for websocket-delivered
events (`onSocketMessage`) and for locally sent messages
(`handleMessageSent`); consequently both handlers preserve the invariant
that each message id occurs at most once in the displayed list. -/
theorem frontend_dedup_by_id (activeId : Option String) (data : MessageEvent)
    (msg : Message) (prev : List Message) :
    (prev.any (fun m => m.id = data.id) = true →
      onSocketMessage activeId data prev = prev) ∧
    (prev.any (fun m => m.id = msg.id) = true →
      handleMessageSent msg prev = prev) ∧
    ((prev.map Message.id).Nodup →
      ((onSocketMessage activeId data prev).map Message.id).Nodup ∧
      ((handleMessageSent msg prev).map Message.id).Nodup) := by
  refine ⟨?_, ?_, ?_⟩
  · intro h
    simp [onSocketMessage, h]
  · intro h
    simp [handleMessageSent, h]
  · intro hn
    constructor
    · unfold onSocketMessage
      split
      · exact hn
      · rcases hany : prev.any (fun m => m.id = data.id) with _ | _
        · rw [if_neg (by simp [hany])]
          exact nodup_ids_append prev (msgOfEvent data) hn hany
        · rw [if_pos rfl]
          exact hn
    · unfold handleMessageSent
      rcases hany : prev.any (fun m => m.id = msg.id) with _ | _
      · rw [if_neg (by simp [hany])]
        exact nodup_ids_append prev msg hn hany
      · rw [if_pos rfl]
        exact hn

/-- Concrete check of C9 at explicit inputs. -/
theorem frontend_dedup_by_id_witness :
    ([({ id := "m1", conversation_id := "c1", author_type := "agent",
         user_id := none, agent_id := none, content := "hi",
         tokens_in := 0, tokens_out := 0, cost_usd := "0",
         model_used := none, created_at := "t" } : Message)].any
       (fun m => m.id = "m1") = true) ∧
    onSocketMessage (some "c1")
      { id := "m1", conversation_id := "c1", author_type := "agent",
        agent_id := none, content := "hi", created_at := "t" }
      [{ id := "m1", conversation_id := "c1", author_type := "agent",
         user_id := none, agent_id := none, content := "hi",
         tokens_in := 0, tokens_out := 0, cost_usd := "0",
         model_used := none, created_at := "t" }] =
      [{ id := "m1", conversation_id := "c1", author_type := "agent",
         user_id := none, agent_id := none, content := "hi",
         tokens_in := 0, tokens_out := 0, cost_usd := "0",
         model_used := none, created_at := "t" }] := by
  refine ⟨by decide, ?_⟩
  exact (frontend_dedup_by_id (some "c1")
    { id := "m1", conversation_id := "c1", author_type := "agent",
      agent_id := none, content := "hi", created_at := "t" }
    { id := "m1", conversation_id := "c1", author_type := "agent",
      user_id := none, agent_id := none, content := "hi",
      tokens_in := 0, tokens_out := 0, cost_usd := "0",
      model_used := none, created_at := "t" }
    [{ id := "m1", conversation_id := "c1", author_type := "agent",
       user_id := none, agent_id := none, content := "hi",
       tokens_in := 0, tokens_out := 0, cost_usd := "0",
       model_used := none, created_at := "t" }]).1 (by decide)

/-- Claim C10: a websocket message event is appended only when its
`conversation_id` equals the currently selected conversation id; events for
any other conversation (including when no conversation is selected) leave
the list unchanged, and the handler preserves the invariant that every
displayed message belongs to the active conversation. -/
theorem frontend_active_conversation_filter (activeId : Option String)
    (data : MessageEvent) (prev : List Message) :
    (some data.conversation_id ≠ activeId →
      onSocketMessage activeId data prev = prev) ∧
    ((∀ m ∈ prev, some m.conversation_id = activeId) →
      ∀ m ∈ onSocketMessage activeId data prev,
        some m.conversation_id = activeId) := by
  constructor
  · intro h
    unfold onSocketMessage
    rw [if_pos h]
  · intro hall m hm
    by_cases hc : some data.conversation_id ≠ activeId
    · unfold onSocketMessage at hm
      rw [if_pos hc] at hm
      exact hall m hm
    · push_neg at hc
      unfold onSocketMessage at hm
      rw [if_neg (by simp [hc])] at hm
      by_cases h2 : prev.any (fun x => x.id = data.id) = true
      · rw [if_pos h2] at hm
        exact hall m hm
      · rw [if_neg h2] at hm
        rcases List.mem_append.mp hm with h | h
        · exact hall m h
        · have hme : m = msgOfEvent data := List.mem_singleton.mp h
          subst hme
          simpa [msgOfEvent] using hc

/-- Concrete check of C10 at explicit inputs: an event for conversation
"c2" is dropped while "c1" is active. -/
theorem frontend_active_conversation_filter_witness :
    onSocketMessage (some "c1")
      { id := "m2", conversation_id := "c2", author_type := "agent",
        agent_id := none, content := "x", created_at := "t" } [] = [] :=
  (frontend_active_conversation_filter (some "c1")
    { id := "m2", conversation_id := "c2", author_type := "agent",
      agent_id := none, content := "x", created_at := "t" } []).1 (by decide)

end MCC

namespace MCC

/-! ## Task lifecycle state machine (spec section 4.4) -/

/-- Task status values, the only legal strings per docs/DB_SCHEMA.md
`tasks.status` CHECK constraint. -/
inductive TaskStatus where
  | pending
  | in_progress
  | testing
  | review
  | completed
  | failed
  deriving DecidableEq, Repr, Fintype

/-- Events that drive the Task lifecycle. -/
inductive TaskEvent where
  | assign
  | handoff
  | testPass
  | approve
  | fail
  | manualRetry
  | adminReopen
  deriving DecidableEq, Repr, Fintype

/-- Modelled from the spec: the Task state machine of section 4.4 (the
repository documents the status values in docs/DB_SCHEMA.md but the
transition logic is not yet implemented).  `none` means the transition is
rejected as an InvalidTransition. -/
def taskStep : TaskStatus → TaskEvent → Option TaskStatus
  | .pending, .assign => some .in_progress
  | .in_progress, .handoff => some .testing
  | .testing, .testPass => some .review
  | .review, .approve => some .completed
  | .in_progress, .fail => some .failed
  | .testing, .fail => some .failed
  | .review, .fail => some .failed
  | .failed, .manualRetry => some .in_progress
  | .completed, .adminReopen => some .pending
  | _, _ => none

/-- The transitions the spec lists for the Task lifecycle, plus the
administrative reopen of a completed task. -/
def allowedTransitions : List (TaskStatus × TaskEvent × TaskStatus) :=
  [(.pending, .assign, .in_progress),
   (.in_progress, .handoff, .testing),
   (.testing, .testPass, .review),
   (.review, .approve, .completed),
   (.in_progress, .fail, .failed),
   (.testing, .fail, .failed),
   (.review, .fail, .failed),
   (.failed, .manualRetry, .in_progress),
   (.completed, .adminReopen, .pending)]

/-! ## Orchestration router communication graph (spec section 4.5,
docs/TECH_SPECS.md Communication Rules) -/

/-- Agent types of the fixed communication graph. -/
inductive AgentType where
  | orchestrator
  | architect
  | coder
  | tester
  | reviewer
  deriving DecidableEq, Repr, Fintype

/-- Modelled from the spec: the fixed communication graph of
docs/TECH_SPECS.md Communication Rules (orchestrator may message any
agent; architect may message coders, tester, reviewer; coders may message
tester, reviewer, architect; tester may message coders, reviewer,
architect; reviewer may message coders, architect); the routing layer
enforcing it is not yet implemented. -/
def canMessage : AgentType → AgentType → Bool
  | .orchestrator, _ => true
  | .architect, .coder => true
  | .architect, .tester => true
  | .architect, .reviewer => true
  | .coder, .tester => true
  | .coder, .reviewer => true
  | .coder, .architect => true
  | .tester, .coder => true
  | .tester, .reviewer => true
  | .tester, .architect => true
  | .reviewer, .coder => true
  | .reviewer, .architect => true
  | _, _ => false

/-- A message routed between agents. -/
structure RoutedMessage where
  sender : AgentType
  recipient : AgentType
  body : String
  deriving DecidableEq, Repr

/-- Error raised by the routing layer. -/
inductive RoutingError where
  | recipientNotAllowed (sender recipient : AgentType)
  deriving DecidableEq, Repr

/-- Modelled from the spec: the Orchestration Router appends a message to
the Conversation only after the hard communication-graph check; a message
to a recipient outside the sender allowed set is rejected with a routing
error and the Conversation is left unchanged. -/
def routeMessage (conv : List RoutedMessage) (m : RoutedMessage) :
    Except RoutingError Unit × List RoutedMessage :=
  if canMessage m.sender m.recipient then (Except.ok (), conv ++ [m])
  else (Except.error (.recipientNotAllowed m.sender m.recipient), conv)

end MCC

namespace MCC

/-- Claim C5: the Task lifecycle admits exactly the listed transitions
(pending to in_progress on assignment, in_progress to testing on handoff,
testing to review on test pass, review to completed on approval, any of
in_progress, testing, review to failed, failed to in_progress on manual
retry only, plus administrative reopen of a completed task), and from
`completed` every event other than administrative reopen is rejected. -/
theorem task_lifecycle_exact :
    (∀ s e s', taskStep s e = some s' ↔ (s, e, s') ∈ allowedTransitions) ∧
    (∀ e, e ≠ TaskEvent.adminReopen →
      taskStep TaskStatus.completed e = none) := by
  decide

/-- Concrete check of C5: approving a task in review completes it, and a
completed task rejects a further `fail` event. -/
theorem task_lifecycle_exact_witness :
    taskStep TaskStatus.review TaskEvent.approve = some TaskStatus.completed ∧
    taskStep TaskStatus.completed TaskEvent.fail = none := by
  constructor
  · exact (task_lifecycle_exact.1 TaskStatus.review TaskEvent.approve
      TaskStatus.completed).mpr (by decide)
  · exact task_lifecycle_exact.2 TaskEvent.fail (by decide)

/-- Claim C6: a message whose recipient is outside the sender allowed set
of the fixed communication graph is rejected with a routing error and is
not appended to the Conversation; in particular tester may not message the
orchestrator. -/
theorem router_rejects_disallowed (conv : List RoutedMessage)
    (m : RoutedMessage) (h : canMessage m.sender m.recipient = false) :
    (routeMessage conv m).1 =
      Except.error (.recipientNotAllowed m.sender m.recipient) ∧
    (routeMessage conv m).2 = conv := by
  unfold routeMessage
  rw [if_neg (by simp [h])]
  exact ⟨rfl, rfl⟩

/-- Concrete check of C6: a tester-to-orchestrator message is rejected and
the conversation is unchanged. -/
theorem router_rejects_disallowed_witness :
    (routeMessage []
      { sender := .tester, recipient := .orchestrator, body := "status" }).1 =
      Except.error (.recipientNotAllowed .tester .orchestrator) ∧
    (routeMessage []
      { sender := .tester, recipient := .orchestrator, body := "status" }).2 =
      [] :=
  router_rejects_disallowed []
    { sender := .tester, recipient := .orchestrator, body := "status" }
    (by decide)

end MCC

namespace MCC

/-! ## Usage Ledger (spec sections 3, 4.1, 6; docs/DB_SCHEMA.md token_usage) -/

/-- A metered LLM call record, fields after docs/DB_SCHEMA.md `token_usage`
plus the unique call id the spec requires for de-duplication; cost is a
fixed-point decimal, modelled as a rational. -/
structure UsageRecord where
  call_id : Nat
  timestamp : Nat
  agent_id : Option Nat
  agent_type : Option AgentType
  project_id : Option Nat
  conversation_id : Option Nat
  task_id : Option Nat
  model : String
  tokens_in : Nat
  tokens_out : Nat
  cost_usd : Rat
  was_cached : Bool
  deriving DecidableEq, Repr

/-- Whether a record with the given call id is already in the ledger. -/
def hasCallId (l : List UsageRecord) (cid : Nat) : Bool :=
  l.any (fun r => r.call_id = cid)

/-- Modelled from the spec: the Ledger append of an inbound usage report,
idempotent under at-least-once delivery (the unique call id de-duplicates
repeated reports); the ledger implementation is not yet written. -/
def report (l : List UsageRecord) (r : UsageRecord) : List UsageRecord :=
  if hasCallId l r.call_id then l else r :: l

/-- Ledger sum of costs over the records selected by a filter
(`sum(scope_filter, window)` of spec section 4.1). -/
def sumFilter (f : UsageRecord → Bool) (l : List UsageRecord) : Rat :=
  ((l.filter f).map (fun r => r.cost_usd)).sum

lemma hasCallId_report_self (l : List UsageRecord) (r : UsageRecord) :
    hasCallId (report l r) r.call_id = true := by
  unfold report
  by_cases h : hasCallId l r.call_id = true
  · rw [if_pos h]
    exact h
  · rw [if_neg h]
    simp [hasCallId]

/-- Claim C4: reporting the same UsageRecord twice changes every ledger sum
by the cost exactly once: the second report leaves the ledger itself, hence
the sum for every scope filter and window, unchanged, while the first
report of a fresh call id adds the cost of the record when it matches the
filter. -/
theorem ledger_report_idempotent (l : List UsageRecord) (r : UsageRecord)
    (f : UsageRecord → Bool) :
    report (report l r) r = report l r ∧
    sumFilter f (report (report l r) r) = sumFilter f (report l r) ∧
    (hasCallId l r.call_id = false →
      sumFilter f (report l r) =
        sumFilter f l + (if f r then r.cost_usd else 0)) := by
  have hrep : report (report l r) r = report l r := by
    have h2 := hasCallId_report_self l r
    unfold report at h2 ⊢
    rw [if_pos h2]
  refine ⟨hrep, by rw [hrep], ?_⟩
  intro h
  unfold report
  rw [if_neg (by simp [h])]
  unfold sumFilter
  rw [List.filter_cons]
  by_cases hf : f r = true
  · rw [if_pos hf, if_pos hf]
    simp [add_comm]
  · rw [if_neg hf, if_neg (by simpa using hf)]
    simp

/-- Concrete check of C4: a fresh report adds its cost once and a repeat
report changes nothing. -/
theorem ledger_report_idempotent_witness :
    (hasCallId [] 7 = false) ∧
    sumFilter (fun _ => true)
      (report []
        { call_id := 7, timestamp := 0, agent_id := none, agent_type := none,
          project_id := none, conversation_id := none, task_id := none,
          model := "m", tokens_in := 1, tokens_out := 2, cost_usd := 3,
          was_cached := false }) =
      sumFilter (fun _ => true) ([] : List UsageRecord) + 3 := by
  refine ⟨by decide, ?_⟩
  have h := (ledger_report_idempotent []
    { call_id := 7, timestamp := 0, agent_id := none, agent_type := none,
      project_id := none, conversation_id := none, task_id := none,
      model := "m", tokens_in := 1, tokens_out := 2, cost_usd := 3,
      was_cached := false } (fun _ => true)).2.2 (by decide)
  simpa using h

/-! ## Task rollup counters (spec section 3, docs/DB_SCHEMA.md
tasks.total_tokens_used / tasks.total_cost_usd) -/

/-- Total tokens of the ledger records attributed to a task. -/
def taskTokensOf (l : List UsageRecord) (t : Nat) : Nat :=
  ((l.filter (fun r => r.task_id = some t)).map
    (fun r => r.tokens_in + r.tokens_out)).sum

/-- Total cost of the ledger records attributed to a task. -/
def taskCostOf (l : List UsageRecord) (t : Nat) : Rat :=
  sumFilter (fun r => r.task_id = some t) l

/-- Orchestrator-side state holding the ledger and the denormalized
per-task rollup counters. -/
structure OrchestratorState where
  ledger : List UsageRecord
  taskTokens : Nat → Nat
  taskCost : Nat → Rat

/-- The initial state: empty ledger, zero counters. -/
def initState : OrchestratorState :=
  { ledger := [], taskTokens := fun _ => 0, taskCost := fun _ => 0 }

/-- Modelled from the spec: recording a usage report appends to the ledger
and updates the owning task rollup counters as one atomic unit (one state
transition); a duplicate call id changes nothing.  The implementation is
not yet written. -/
def recordUsage (s : OrchestratorState) (r : UsageRecord) :
    OrchestratorState :=
  if hasCallId s.ledger r.call_id then s
  else
    { ledger := r :: s.ledger
      taskTokens := fun t =>
        if r.task_id = some t then s.taskTokens t + (r.tokens_in + r.tokens_out)
        else s.taskTokens t
      taskCost := fun t =>
        if r.task_id = some t then s.taskCost t + r.cost_usd
        else s.taskCost t }

/-- The rollup invariant: every task counter equals the sum over that
task's ledger records. -/
def RollupInv (s : OrchestratorState) : Prop :=
  ∀ t, s.taskTokens t = taskTokensOf s.ledger t ∧
    s.taskCost t = taskCostOf s.ledger t

lemma rollupInv_init : RollupInv initState := by
  intro t
  constructor
  · rfl
  · rfl

lemma rollupInv_recordUsage (s : OrchestratorState) (r : UsageRecord)
    (h : RollupInv s) : RollupInv (recordUsage s r) := by
  unfold recordUsage
  by_cases hc : hasCallId s.ledger r.call_id = true
  · rw [if_pos hc]
    exact h
  · rw [if_neg hc]
    intro t
    by_cases ht : r.task_id = some t
    · constructor
      · simp only [if_pos ht, taskTokensOf, List.filter_cons,
          decide_eq_true ht, if_pos, List.map_cons, List.sum_cons]
        rw [(h t).1]
        unfold taskTokensOf
        omega
      · simp only [if_pos ht, taskCostOf, sumFilter, List.filter_cons,
          decide_eq_true ht, if_pos, List.map_cons, List.sum_cons]
        rw [(h t).2]
        unfold taskCostOf sumFilter
        ring
    · constructor
      · simp only [if_neg ht, taskTokensOf, List.filter_cons]
        rw [if_neg (by simpa using ht)]
        exact (h t).1
      · simp only [if_neg ht, taskCostOf, sumFilter, List.filter_cons]
        rw [if_neg (by simpa using ht)]
        exact (h t).2

/-- Claim C8: the denormalized per-task token and cost counters equal the
sum over that task's UsageRecords in the initial state, after every single
atomic `recordUsage` step, and hence in every state reachable by a sequence
of usage reports (ledger append and rollup update are one state
transition, so no intermediate state exists). -/
theorem task_rollup_consistent :
    RollupInv initState ∧
    (∀ s r, RollupInv s → RollupInv (recordUsage s r)) ∧
    (∀ rs : List UsageRecord, RollupInv (rs.foldl recordUsage initState)) := by
  refine ⟨rollupInv_init, rollupInv_recordUsage, ?_⟩
  intro rs
  suffices h : ∀ (rs : List UsageRecord) (s : OrchestratorState),
      RollupInv s → RollupInv (rs.foldl recordUsage s) from
    h rs initState rollupInv_init
  intro rs
  induction rs with
  | nil => intro s hs; exact hs
  | cons r rs ih =>
    intro s hs
    exact ih (recordUsage s r) (rollupInv_recordUsage s r hs)

/-- Concrete check of C8: one recorded report keeps the rollup of task 5
equal to the ledger sum. -/
theorem task_rollup_consistent_witness :
    RollupInv (recordUsage initState
      { call_id := 1, timestamp := 0, agent_id := none, agent_type := none,
        project_id := none, conversation_id := none, task_id := some 5,
        model := "m", tokens_in := 10, tokens_out := 20, cost_usd := 2,
        was_cached := false }) :=
  task_rollup_consistent.2.1 initState
    { call_id := 1, timestamp := 0, agent_id := none, agent_type := none,
      project_id := none, conversation_id := none, task_id := some 5,
      model := "m", tokens_in := 10, tokens_out := 20, cost_usd := 2,
      was_cached := false }
    (fun _ => ⟨rfl, rfl⟩)

end MCC

namespace MCC

/-! ## Budget Registry (spec sections 3, 4.2; docs/DB_SCHEMA.md
budget_limits) -/

/-- A budget limit scope, the tagged variant of docs/DB_SCHEMA.md
`budget_limits.scope_type` with its accompanying `scope_id` or
`scope_agent_type`. -/
inductive Scope where
  | global
  | project (id : Nat)
  | agentType (t : AgentType)
  | agent (id : Nat)
  deriving DecidableEq, Repr

/-- Budget period values, per docs/DB_SCHEMA.md `budget_limits.period`. -/
inductive Period where
  | daily
  | weekly
  | monthly
  deriving DecidableEq, Repr, Fintype

/-- Action taken on exceeding a limit, per docs/DB_SCHEMA.md
`budget_limits.action_on_exceed`. -/
inductive ActionOnExceed where
  | warn
  | block
  deriving DecidableEq, Repr, Fintype

/-- A budget limit row, fields after docs/DB_SCHEMA.md `budget_limits`. -/
structure BudgetLimit where
  id : Nat
  name : String
  scope : Scope
  amount_usd : Rat
  period : Period
  alert_threshold : Rat
  action_on_exceed : ActionOnExceed
  is_active : Bool
  deriving DecidableEq, Repr

/-- Errors the registry raises when a mutation is rejected. -/
inductive RegError where
  | duplicateActive
  | duplicateId
  | notFound
  deriving DecidableEq, Repr

/-- A registry mutation: create a limit, update a limit in place (matched
by id), or deactivate a limit (soft delete via the active flag). -/
inductive RegOp where
  | create (l : BudgetLimit)
  | update (l : BudgetLimit)
  | deactivate (i : Nat)
  deriving DecidableEq, Repr

/-- Modelled from the spec: create validates the one-active-limit-per
scope-and-period invariant (and id freshness) before committing; the
registry implementation is not yet written. -/
def createLimit (reg : List BudgetLimit) (l : BudgetLimit) :
    Except RegError (List BudgetLimit) :=
  if reg.any (fun m => m.id = l.id) then .error .duplicateId
  else if l.is_active &&
      reg.any (fun m => m.is_active && m.scope = l.scope &&
        m.period = l.period) then .error .duplicateActive
  else .ok (l :: reg)

/-- Modelled from the spec: update replaces the limit with the same id
after validating that the updated limit conflicts with no other active
limit of identical scope and period. -/
def updateLimit (reg : List BudgetLimit) (l : BudgetLimit) :
    Except RegError (List BudgetLimit) :=
  if ¬ reg.any (fun m => m.id = l.id) then .error .notFound
  else if l.is_active &&
      reg.any (fun m => m.id ≠ l.id && m.is_active &&
        m.scope = l.scope && m.period = l.period) then
    .error .duplicateActive
  else .ok (reg.map (fun m => if m.id = l.id then l else m))

/-- Modelled from the spec: deactivate clears the active flag of the limit
with the given id (soft delete, never hard delete). -/
def deactivateLimit (reg : List BudgetLimit) (i : Nat) :
    Except RegError (List BudgetLimit) :=
  if reg.any (fun m => m.id = i) then
    .ok (reg.map (fun m =>
      if m.id = i then { m with is_active := false } else m))
  else .error .notFound

/-- Dispatch a registry mutation. -/
def applyRegOp (reg : List BudgetLimit) :
    RegOp → Except RegError (List BudgetLimit)
  | .create l => createLimit reg l
  | .update l => updateLimit reg l
  | .deactivate i => deactivateLimit reg i

/-- Apply a mutation, keeping the old registry when it is rejected. -/
def applyOrKeep (reg : List BudgetLimit) (op : RegOp) : List BudgetLimit :=
  match applyRegOp reg op with
  | .ok reg' => reg'
  | .error _ => reg

/-- The registry invariant: ids are unique and no two simultaneously
active limits share scope and period. -/
def RegistryInv (reg : List BudgetLimit) : Prop :=
  reg.Pairwise (fun a b => a.id ≠ b.id ∧
    ¬(a.is_active = true ∧ b.is_active = true ∧
      a.scope = b.scope ∧ a.period = b.period))

lemma registryInv_create (reg : List BudgetLimit) (l : BudgetLimit)
    (reg' : List BudgetLimit) (h : RegistryInv reg)
    (hc : createLimit reg l = .ok reg') : RegistryInv reg' := by
  unfold createLimit at hc
  by_cases h1 : reg.any (fun m => m.id = l.id) = true
  · rw [if_pos h1] at hc
    exact absurd hc (by simp)
  · rw [if_neg h1] at hc
    by_cases h2 : (l.is_active &&
        reg.any (fun m => m.is_active && m.scope = l.scope &&
          m.period = l.period)) = true
    · rw [if_pos h2] at hc
      exact absurd hc (by simp)
    · rw [if_neg h2] at hc
      have h1' : ∀ x ∈ reg, ¬x.id = l.id := by simpa using h1
      have h2' : l.is_active = true → ∀ x ∈ reg, x.is_active = true →
          x.scope = l.scope → ¬x.period = l.period := by simpa using h2
      have hr : reg' = l :: reg := by simpa using hc.symm
      subst hr
      refine List.Pairwise.cons ?_ h
      intro m hm
      constructor
      · intro hid
        exact h1' m hm hid.symm
      · rintro ⟨hla, hma, hsc, hpd⟩
        exact h2' hla m hm hma hsc.symm hpd.symm

lemma registryInv_deactivate (reg : List BudgetLimit) (i : Nat)
    (reg' : List BudgetLimit) (h : RegistryInv reg)
    (hc : deactivateLimit reg i = .ok reg') : RegistryInv reg' := by
  unfold deactivateLimit at hc
  by_cases h1 : reg.any (fun m => m.id = i) = true
  · rw [if_pos h1] at hc
    have hr : reg' = reg.map (fun m =>
        if m.id = i then { m with is_active := false } else m) := by
      simpa using hc.symm
    subst hr
    unfold RegistryInv at h ⊢
    rw [List.pairwise_map]
    have hidA : ∀ m : BudgetLimit,
        (if m.id = i then { m with is_active := false } else m).id = m.id := by
      intro m
      by_cases hm : m.id = i <;> simp [hm]
    have hscA : ∀ m : BudgetLimit,
        (if m.id = i then { m with is_active := false } else m).scope =
          m.scope := by
      intro m
      by_cases hm : m.id = i <;> simp [hm]
    have hpdA : ∀ m : BudgetLimit,
        (if m.id = i then { m with is_active := false } else m).period =
          m.period := by
      intro m
      by_cases hm : m.id = i <;> simp [hm]
    have hactA : ∀ m : BudgetLimit,
        (if m.id = i then { m with is_active := false } else m).is_active =
          true → m.is_active = true := by
      intro m
      by_cases hm : m.id = i <;> simp [hm]
    refine h.imp ?_
    intro a b hab
    refine ⟨by rw [hidA a, hidA b]; exact hab.1, ?_⟩
    rintro ⟨hua, hub, husc, hupd⟩
    rw [hscA a, hscA b] at husc
    rw [hpdA a, hpdA b] at hupd
    exact hab.2 ⟨hactA a hua, hactA b hub, husc, hupd⟩
  · rw [if_neg h1] at hc
    exact absurd hc (by simp)

lemma registryInv_update (reg : List BudgetLimit) (l : BudgetLimit)
    (reg' : List BudgetLimit) (h : RegistryInv reg)
    (hc : updateLimit reg l = .ok reg') : RegistryInv reg' := by
  unfold updateLimit at hc
  by_cases h1 : reg.any (fun m => m.id = l.id) = true
  · rw [if_neg (by simp [h1])] at hc
    by_cases h2 : (l.is_active &&
        reg.any (fun m => m.id ≠ l.id && m.is_active &&
          m.scope = l.scope && m.period = l.period)) = true
    · rw [if_pos h2] at hc
      exact absurd hc (by simp)
    · rw [if_neg h2] at hc
      have hconf : l.is_active = true → ∀ x ∈ reg, ¬x.id = l.id →
          x.is_active = true → x.scope = l.scope →
          ¬x.period = l.period := by
        simpa using h2
      have hr : reg' = reg.map (fun m => if m.id = l.id then l else m) := by
        simpa using hc.symm
      subst hr
      unfold RegistryInv at h ⊢
      rw [List.pairwise_map]
      refine List.Pairwise.imp_of_mem ?_ h
      intro a b ha hb hab
      by_cases hA : a.id = l.id <;> by_cases hB : b.id = l.id
      · exact absurd (hA.trans hB.symm) hab.1
      · rw [if_pos hA, if_neg hB]
        refine ⟨by rw [← hA]; exact hab.1, ?_⟩
        rintro ⟨hla, hmb, hsc, hpd⟩
        exact hconf hla b hb hB hmb hsc.symm hpd.symm
      · rw [if_neg hA, if_pos hB]
        refine ⟨by rw [← hB]; exact hab.1, ?_⟩
        rintro ⟨hma, hlb, hsc, hpd⟩
        exact hconf hlb a ha hA hma hsc hpd
      · rw [if_neg hA, if_neg hB]
        exact hab
  · rw [if_pos (by simp [h1])] at hc
    exact absurd hc (by simp)

/-- Claim C3: every reachable registry state has at most one active limit
per (scope, period): the empty registry satisfies the invariant, every
mutation that commits preserves it, a create that would produce a second
simultaneously active limit for an identical scope and period is rejected
with an error, and hence every state reached from empty by any sequence of
mutations satisfies it. -/
theorem registry_one_active_per_scope_period :
    RegistryInv [] ∧
    (∀ reg op reg', RegistryInv reg → applyRegOp reg op = .ok reg' →
      RegistryInv reg') ∧
    (∀ reg l, l.is_active = true →
      (∃ m ∈ reg, m.is_active = true ∧ m.scope = l.scope ∧
        m.period = l.period) →
      ∃ e, createLimit reg l = .error e) ∧
    (∀ ops : List RegOp, RegistryInv (ops.foldl applyOrKeep [])) := by
  have hstep : ∀ reg op reg', RegistryInv reg →
      applyRegOp reg op = .ok reg' → RegistryInv reg' := by
    intro reg op reg' h hc
    cases op with
    | create l => exact registryInv_create reg l reg' h hc
    | update l => exact registryInv_update reg l reg' h hc
    | deactivate i => exact registryInv_deactivate reg i reg' h hc
  refine ⟨List.Pairwise.nil, hstep, ?_, ?_⟩
  · intro reg l hact hdup
    obtain ⟨m, hm, hma, hsc, hpd⟩ := hdup
    unfold createLimit
    by_cases h1 : reg.any (fun x => x.id = l.id) = true
    · exact ⟨.duplicateId, by rw [if_pos h1]⟩
    · refine ⟨.duplicateActive, ?_⟩
      have hcond : (l.is_active &&
          reg.any (fun x => x.is_active && x.scope = l.scope &&
            x.period = l.period)) = true := by
        rw [hact]
        simp only [Bool.true_and, List.any_eq_true]
        exact ⟨m, hm, by simp [hma, hsc, hpd]⟩
      rw [if_neg h1, if_pos hcond]
  · intro ops
    suffices hgen : ∀ (ops : List RegOp) (reg : List BudgetLimit),
        RegistryInv reg → RegistryInv (ops.foldl applyOrKeep reg) from
      hgen ops [] List.Pairwise.nil
    intro ops
    induction ops with
    | nil => intro reg h; exact h
    | cons op ops ih =>
      intro reg h
      apply ih
      unfold applyOrKeep
      cases hres : applyRegOp reg op with
      | ok reg' => exact hstep reg op reg' h hres
      | error e => exact h

/-- Concrete check of C3: creating a second active global daily limit is
rejected with an error. -/
theorem registry_one_active_per_scope_period_witness :
    (({ id := 2, name := "g2", scope := .global, amount_usd := 20,
        period := .daily, alert_threshold := 1, action_on_exceed := .warn,
        is_active := true } : BudgetLimit).is_active = true) ∧
    ∃ e, createLimit
      [{ id := 1, name := "g1", scope := .global, amount_usd := 50,
         period := .daily, alert_threshold := 1,
         action_on_exceed := .block, is_active := true }]
      { id := 2, name := "g2", scope := .global, amount_usd := 20,
        period := .daily, alert_threshold := 1, action_on_exceed := .warn,
        is_active := true } = .error e := by
  refine ⟨by decide, ?_⟩
  exact registry_one_active_per_scope_period.2.2.1
    [{ id := 1, name := "g1", scope := .global, amount_usd := 50,
       period := .daily, alert_threshold := 1,
       action_on_exceed := .block, is_active := true }]
    { id := 2, name := "g2", scope := .global, amount_usd := 20,
      period := .daily, alert_threshold := 1, action_on_exceed := .warn,
      is_active := true }
    (by decide)
    ⟨{ id := 1, name := "g1", scope := .global, amount_usd := 50,
       period := .daily, alert_threshold := 1,
       action_on_exceed := .block, is_active := true },
      by decide, by decide, by decide, by decide⟩

end MCC

namespace MCC

/-! ## Admission Controller (spec sections 4.2, 4.3; docs/TECH_SPECS.md
Enforcement Points, docs/API_SPEC.md Emergency) -/

/-- The attribution of a pending call (spec section 6, Call Admission
Request). -/
structure Attribution where
  agent_id : Nat
  agent_type : AgentType
  project_id : Nat
  conversation_id : Option Nat
  task_id : Option Nat
  deriving DecidableEq, Repr

/-- Modelled from the spec: whether a limit scope applies to a call
attribution (spec section 4.2); the resolution code is not yet written. -/
def scopeMatches : Scope → Attribution → Bool
  | .global, _ => true
  | .project p, a => a.project_id = p
  | .agentType t, a => a.agent_type = t
  | .agent i, a => a.agent_id = i

/-- Modelled from the spec: `resolve(attribution)`, every active limit
whose scope matches the attribution. -/
def resolve (reg : List BudgetLimit) (a : Attribution) : List BudgetLimit :=
  reg.filter (fun l => l.is_active && scopeMatches l.scope a)

/-- Whether a usage record falls under a limit scope (spec section 3,
BudgetWindow). -/
def recordInScope : Scope → UsageRecord → Bool
  | .global, _ => true
  | .project p, r => r.project_id = some p
  | .agentType t, r => r.agent_type = some t
  | .agent i, r => r.agent_id = some i

/-- Aggregate spend in a window: sum of the costs of the records in scope
whose timestamp lies in the half-open window. -/
def windowSpend (led : List UsageRecord) (sc : Scope) (w : Nat × Nat) :
    Rat :=
  sumFilter (fun r => recordInScope sc r && decide (w.1 ≤ r.timestamp) &&
    decide (r.timestamp < w.2)) led

/-- `pct = (window_spend + estimated_cost) / limit.amount` of spec
section 4.3, with the current window of each period supplied by `win`. -/
def pctOf (led : List UsageRecord) (win : Period → Nat × Nat) (est : Rat)
    (l : BudgetLimit) : Rat :=
  (windowSpend led l.scope (win l.period) + est) / l.amount_usd

/-- Scope-specificity rank: agent over agent_type over project over
global. -/
def specRank : Scope → Nat
  | .agent _ => 3
  | .agentType _ => 2
  | .project _ => 1
  | .global => 0

/-- The applicable limits arranged in scope-specificity order, most
specific first. -/
def orderedBySpecificity (ls : List BudgetLimit) : List BudgetLimit :=
  ls.filter (fun l => specRank l.scope = 3) ++
    ls.filter (fun l => specRank l.scope = 2) ++
    ls.filter (fun l => specRank l.scope = 1) ++
    ls.filter (fun l => specRank l.scope = 0)

/-- A limit at or past 100 percent whose action on exceed is block. -/
def blockingPred (led : List UsageRecord) (win : Period → Nat × Nat)
    (est : Rat) (l : BudgetLimit) : Bool :=
  decide (1 ≤ pctOf led win est l) &&
    decide (l.action_on_exceed = ActionOnExceed.block)

/-- A limit at or past its alert threshold. -/
def warnPred (led : List UsageRecord) (win : Period → Nat × Nat)
    (est : Rat) (l : BudgetLimit) : Bool :=
  decide (l.alert_threshold ≤ pctOf led win est l)

/-- The admission decision of spec section 4.3. -/
inductive Decision where
  | allow
  | warn (l : BudgetLimit) (pct : Rat)
  | blockPaused
  | block (l : BudgetLimit) (pct : Rat)
  deriving DecidableEq, Repr

/-- Modelled from the spec: limit evaluation of `check` (spec section
4.3): BLOCK for the first blocking limit in scope-specificity order, else
WARN for the highest-pct limit past its alert threshold, else ALLOW.  The
admission controller is not yet implemented. -/
def evalLimits (reg : List BudgetLimit) (led : List UsageRecord)
    (win : Period → Nat × Nat) (attr : Attribution) (est : Rat) :
    Decision :=
  match (orderedBySpecificity (resolve reg attr)).find?
      (blockingPred led win est) with
  | some l => .block l (pctOf led win est l)
  | none =>
    match (resolve reg attr).filter (warnPred led win est) with
    | [] => .allow
    | h :: t =>
      let best := t.foldl (fun b l =>
        if pctOf led win est b < pctOf led win est l then l else b) h
      .warn best (pctOf led win est best)

/-- Modelled from the spec: `check(attribution, estimated_cost)`; the
global pause flag is evaluated first, before limit resolution. -/
def check (paused : Bool) (reg : List BudgetLimit)
    (led : List UsageRecord) (win : Period → Nat × Nat)
    (attr : Attribution) (est : Rat) : Decision :=
  if paused then .blockPaused else evalLimits reg led win attr est

/-- The admission-controller state: the process-wide pause flag together
with the registry and ledger it reads. -/
structure ControllerState where
  paused : Bool
  registry : List BudgetLimit
  ledger : List UsageRecord

/-- Set the process-wide global pause flag. -/
def setGlobalPause (s : ControllerState) : ControllerState :=
  { s with paused := true }

/-- Clear the process-wide global pause flag. -/
def clearGlobalPause (s : ControllerState) : ControllerState :=
  { s with paused := false }

/-- `check` against the controller state. -/
def checkState (s : ControllerState) (win : Period → Nat × Nat)
    (attr : Attribution) (est : Rat) : Decision :=
  check s.paused s.registry s.ledger win attr est

end MCC

namespace MCC

/-! ### Helper lemmas about specificity ordering and find? -/

lemma pairwise_of_forall_mem {α : Type} {R : α → α → Prop}
    {l : List α} (h : ∀ a ∈ l, ∀ b ∈ l, R a b) : l.Pairwise R := by
  induction l with
  | nil => exact List.Pairwise.nil
  | cons x xs ih =>
    refine List.Pairwise.cons ?_ (ih ?_)
    · intro b hb
      exact h x (List.mem_cons_self x xs) b (List.mem_cons_of_mem x hb)
    · intro a ha b hb
      exact h a (List.mem_cons_of_mem x ha) b (List.mem_cons_of_mem x hb)

lemma specRank_lt_four (sc : Scope) : specRank sc < 4 := by
  cases sc <;> simp [specRank]

lemma mem_orderedBySpecificity (ls : List BudgetLimit) (x : BudgetLimit) :
    x ∈ orderedBySpecificity ls ↔ x ∈ ls := by
  unfold orderedBySpecificity
  constructor
  · intro h
    simp only [List.mem_append, List.mem_filter] at h
    rcases h with ((h | h) | h) | h <;> exact h.1
  · intro h
    simp only [List.mem_append, List.mem_filter]
    have h4 := specRank_lt_four x.scope
    interval_cases hr : specRank x.scope
    · exact Or.inr (by simp [h, hr])
    · exact Or.inl (Or.inr (by simp [h, hr]))
    · exact Or.inl (Or.inl (Or.inr (by simp [h, hr])))
    · exact Or.inl (Or.inl (Or.inl (by simp [h, hr])))

lemma pairwise_orderedBySpecificity (ls : List BudgetLimit) :
    (orderedBySpecificity ls).Pairwise
      (fun a b => specRank b.scope ≤ specRank a.scope) := by
  unfold orderedBySpecificity
  have hseg : ∀ k : Nat, (ls.filter (fun l => specRank l.scope = k)).Pairwise
      (fun a b => specRank b.scope ≤ specRank a.scope) := by
    intro k
    refine pairwise_of_forall_mem ?_
    intro a ha b hb
    have ha' := (List.mem_filter.mp ha).2
    have hb' := (List.mem_filter.mp hb).2
    simp only [decide_eq_true_eq] at ha' hb'
    omega
  have hrank : ∀ (k : Nat) (a : BudgetLimit),
      a ∈ ls.filter (fun l => specRank l.scope = k) →
      specRank a.scope = k := by
    intro k a ha
    have := (List.mem_filter.mp ha).2
    simpa using this
  rw [List.pairwise_append]
  refine ⟨?_, hseg 0, ?_⟩
  · rw [List.pairwise_append]
    refine ⟨?_, hseg 1, ?_⟩
    · rw [List.pairwise_append]
      refine ⟨hseg 3, hseg 2, ?_⟩
      intro a ha b hb
      rw [hrank 3 a ha, hrank 2 b hb]
      omega
    · intro a ha b hb
      rw [hrank 1 b hb]
      rcases List.mem_append.mp ha with h | h
      · rw [hrank 3 a h]
        omega
      · rw [hrank 2 a h]
        omega
  · intro a ha b hb
    rw [hrank 0 b hb]
    rcases List.mem_append.mp ha with h | h
    · rcases List.mem_append.mp h with h2 | h2
      · rw [hrank 3 a h2]
        omega
      · rw [hrank 2 a h2]
        omega
    · rw [hrank 1 a h]
      omega

lemma find_exists {α : Type} (p : α → Bool) :
    ∀ (l : List α), (∃ y ∈ l, p y = true) → ∃ x, l.find? p = some x := by
  intro l
  induction l with
  | nil => rintro ⟨y, hy, _⟩; exact absurd hy (List.not_mem_nil y)
  | cons a t ih =>
    rintro ⟨y, hy, hpy⟩
    by_cases hpa : p a = true
    · exact ⟨a, List.find?_cons_of_pos t hpa⟩
    · rcases List.mem_cons.mp hy with h | h
      · subst h
        exact absurd hpy hpa
      · obtain ⟨x, hx⟩ := ih ⟨y, h, hpy⟩
        exact ⟨x, by rw [List.find?_cons_of_neg t (by simpa using hpa), hx]⟩

lemma find_first_max {α : Type} (p : α → Bool) (f : α → Nat) :
    ∀ (l : List α), l.Pairwise (fun a b => f b ≤ f a) →
    ∀ x, l.find? p = some x →
    x ∈ l ∧ p x = true ∧ ∀ y ∈ l, p y = true → f y ≤ f x := by
  intro l
  induction l with
  | nil => intro _ x hx; exact absurd hx (by simp)
  | cons a t ih =>
    intro hpw x hx
    rcases List.pairwise_cons.mp hpw with ⟨hhead, htail⟩
    by_cases hpa : p a = true
    · rw [List.find?_cons_of_pos t hpa] at hx
      have hxa : x = a := by simpa using hx.symm
      subst hxa
      refine ⟨List.mem_cons_self x t, hpa, ?_⟩
      intro y hy _
      rcases List.mem_cons.mp hy with h | h
      · rw [h]
      · exact hhead y h
    · rw [List.find?_cons_of_neg t (by simpa using hpa)] at hx
      obtain ⟨hxm, hxp, hxmax⟩ := ih htail x hx
      refine ⟨List.mem_cons_of_mem a hxm, hxp, ?_⟩
      intro y hy hpy
      rcases List.mem_cons.mp hy with h | h
      · subst h
        exact absurd hpy hpa
      · exact hxmax y h hpy

end MCC

namespace MCC

/-- The concrete global daily limit of the spec scenario: $50.00, block on
exceed. -/
def globalDaily50 : BudgetLimit :=
  { id := 1, name := "global-daily", scope := .global, amount_usd := 50,
    period := .daily, alert_threshold := 4/5, action_on_exceed := .block,
    is_active := true }

/-- A ledger record carrying the $49.00 current-window spend of the spec
scenario. -/
def spend49 : UsageRecord :=
  { call_id := 1, timestamp := 100, agent_id := some 1,
    agent_type := some .coder, project_id := some 1,
    conversation_id := none, task_id := none, model := "m",
    tokens_in := 100, tokens_out := 100, cost_usd := 49,
    was_cached := false }

/-- The current daily window used in the scenario. -/
def dayWindow : Period → Nat × Nat := fun _ => (0, 86400)

/-- The attribution of the pending call in the scenario. -/
def attrExample : Attribution :=
  { agent_id := 1, agent_type := .coder, project_id := 1,
    conversation_id := none, task_id := none }

lemma windowSpend_scenario :
    windowSpend [spend49] Scope.global (dayWindow Period.daily) = 49 := by
  simp [windowSpend, sumFilter, spend49, dayWindow, recordInScope]

lemma pct_scenario : pctOf [spend49] dayWindow 2 globalDaily50 = 51 / 50 := by
  unfold pctOf
  rw [show globalDaily50.scope = Scope.global from rfl,
    show globalDaily50.period = Period.daily from rfl, windowSpend_scenario]
  norm_num [globalDaily50]

lemma blockingPred_scenario :
    blockingPred [spend49] dayWindow 2 globalDaily50 = true := by
  unfold blockingPred
  rw [pct_scenario]
  simp only [Bool.and_eq_true, decide_eq_true_eq]
  exact ⟨by norm_num, rfl⟩

lemma check_scenario :
    check false [globalDaily50] [spend49] dayWindow attrExample 2 =
      Decision.block globalDaily50 (51 / 50) := by
  have h1 : check false [globalDaily50] [spend49] dayWindow attrExample 2 =
      evalLimits [globalDaily50] [spend49] dayWindow attrExample 2 := rfl
  rw [h1]
  unfold evalLimits
  rw [show orderedBySpecificity (resolve [globalDaily50] attrExample) =
    [globalDaily50] from rfl]
  rw [List.find?_cons_of_pos _ blockingPred_scenario]
  show Decision.block globalDaily50 (pctOf [spend49] dayWindow 2 globalDaily50) =
    Decision.block globalDaily50 (51 / 50)
  rw [pct_scenario]

/-- Claim C1: with a global daily $50.00 block limit, window spend $49.00
and estimated cost $2.00, `check` returns BLOCK citing that global limit
with pct = 51/50 = 1.02; in general, whenever some applicable limit has
pct at least 1.0 with action block, `check` returns BLOCK for a blocking
limit of maximal scope specificity (agent over agent_type over project
over global). -/
theorem admission_block_most_specific (reg : List BudgetLimit)
    (led : List UsageRecord) (win : Period → Nat × Nat)
    (attr : Attribution) (est : Rat)
    (h : ∃ l ∈ resolve reg attr, 1 ≤ pctOf led win est l ∧
      l.action_on_exceed = ActionOnExceed.block) :
    check false [globalDaily50] [spend49] dayWindow attrExample 2 =
      .block globalDaily50 (51/50) ∧
    ∃ l, check false reg led win attr est = .block l (pctOf led win est l) ∧
      l ∈ resolve reg attr ∧ 1 ≤ pctOf led win est l ∧
      l.action_on_exceed = ActionOnExceed.block ∧
      ∀ l' ∈ resolve reg attr, 1 ≤ pctOf led win est l' →
        l'.action_on_exceed = ActionOnExceed.block →
        specRank l'.scope ≤ specRank l.scope := by
  constructor
  · exact check_scenario
  · obtain ⟨l0, hl0m, hl0p, hl0a⟩ := h
    have hex : ∃ y ∈ orderedBySpecificity (resolve reg attr),
        blockingPred led win est y = true :=
      ⟨l0, (mem_orderedBySpecificity _ l0).mpr hl0m,
        by simp [blockingPred, hl0p, hl0a]⟩
    obtain ⟨x, hfind⟩ := find_exists _ _ hex
    obtain ⟨hxm, hxp, hxmax⟩ := find_first_max (blockingPred led win est)
      (fun l => specRank l.scope) _ (pairwise_orderedBySpecificity _) x hfind
    have hxp' : 1 ≤ pctOf led win est x ∧
        x.action_on_exceed = ActionOnExceed.block := by
      simpa [blockingPred] using hxp
    refine ⟨x, ?_, (mem_orderedBySpecificity _ x).mp hxm, hxp'.1,
      hxp'.2, ?_⟩
    · have hch : check false reg led win attr est =
          evalLimits reg led win attr est := rfl
      rw [hch]
      unfold evalLimits
      rw [hfind]
    · intro l' hl'm hl'p hl'a
      exact hxmax l' ((mem_orderedBySpecificity _ l').mpr hl'm)
        (by simp [blockingPred, hl'p, hl'a])

/-- Concrete check of C1: the $50.00 global daily scenario returns BLOCK
with pct 1.02. -/
theorem admission_block_most_specific_witness :
    check false [globalDaily50] [spend49] dayWindow attrExample 2 =
      .block globalDaily50 (51/50) :=
  (admission_block_most_specific [globalDaily50] [spend49] dayWindow
    attrExample 2 ⟨globalDaily50,
      by show globalDaily50 ∈ [globalDaily50]; exact List.mem_singleton_self _,
      by rw [pct_scenario]; norm_num, rfl⟩).1

/-- Claim C2: while the global pause flag is set every `check` returns
BLOCK with the paused reason regardless of limits (the flag is read before
limit resolution, so the registry and ledger are irrelevant); clearing the
pause leaves the ledger, the registry, and hence every window spend
untouched, and restores plain limit evaluation. -/
theorem admission_global_pause (s : ControllerState)
    (win : Period → Nat × Nat) (attr : Attribution) (est : Rat) :
    (s.paused = true → checkState s win attr est = .blockPaused) ∧
    (checkState (setGlobalPause s) win attr est = .blockPaused) ∧
    ((clearGlobalPause s).ledger = s.ledger ∧
      (clearGlobalPause s).registry = s.registry) ∧
    (∀ sc w, windowSpend (clearGlobalPause s).ledger sc w =
      windowSpend s.ledger sc w) ∧
    (checkState (clearGlobalPause s) win attr est =
      evalLimits s.registry s.ledger win attr est) := by
  refine ⟨?_, rfl, ⟨rfl, rfl⟩, fun sc w => rfl, rfl⟩
  intro hp
  simp [checkState, check, hp]

/-- Concrete check of C2: a paused state blocks even with no limits at
all. -/
theorem admission_global_pause_witness :
    checkState { paused := true, registry := [], ledger := [] } dayWindow
      attrExample 0 = .blockPaused :=
  (admission_global_pause { paused := true, registry := [], ledger := [] }
    dayWindow attrExample 0).1 rfl

end MCC

namespace MCC

/-! ## Orchestration Router retry policy (spec sections 4.5, 9;
docs/TECH_SPECS.md Agent Failures) -/

/-- Outcome of one dispatch attempt (LLM error, timeout and tool failure
are all transient provider errors per spec section 7). -/
inductive DispatchOutcome where
  | ok
  | transientError
  deriving DecidableEq, Repr, Fintype

/-- The explicit retry policy object of spec section 9:
{max_retries, base_delay, multiplier, cap}. -/
structure RetryPolicy where
  max_retries : Nat
  base_delay : Nat
  multiplier : Nat
  cap : Nat
  deriving DecidableEq, Repr

/-- The policy the spec fixes: up to 3 retries, base 2s, factor 2,
capped. -/
def specRetryPolicy : RetryPolicy :=
  { max_retries := 3, base_delay := 2, multiplier := 2, cap := 60 }

/-- Exponential backoff delay before retry number i+1. -/
def backoffDelay (p : RetryPolicy) (i : Nat) : Nat :=
  min p.cap (p.base_delay * p.multiplier ^ i)

/-- Result of dispatching an agent action. -/
inductive DispatchResult where
  | dispatched (attempts : Nat) (delays : List Nat)
  | blockedEscalated
  | failedEscalated (attempts : Nat) (delays : List Nat)
  deriving DecidableEq, Repr

/-- How many dispatch attempts a result used. -/
def attemptsOf : DispatchResult → Nat
  | .dispatched n _ => n
  | .blockedEscalated => 0
  | .failedEscalated n _ => n

/-- Whether an escalation event was emitted. -/
def escalated : DispatchResult → Bool
  | .dispatched _ _ => false
  | .blockedEscalated => true
  | .failedEscalated _ _ => true

/-- The Task status after the dispatch: exhausting retries transitions
the Task to failed. -/
def taskStatusAfter (st : TaskStatus) : DispatchResult → TaskStatus
  | .failedEscalated _ _ => .failed
  | _ => st

/-- Whether an admission decision is a BLOCK (by limit or by pause). -/
def isBlock : Decision → Bool
  | .block _ _ => true
  | .blockPaused => true
  | _ => false

/-- The retry loop: attempt i, then retry while retries remain, waiting
the exponential backoff delay between attempts. -/
def retryGo (p : RetryPolicy) (outcomes : Nat → DispatchOutcome)
    (i : Nat) : Nat → DispatchResult
  | 0 =>
    match outcomes i with
    | .ok => .dispatched (i + 1) ((List.range i).map (backoffDelay p))
    | .transientError =>
        .failedEscalated (i + 1) ((List.range i).map (backoffDelay p))
  | r + 1 =>
    match outcomes i with
    | .ok => .dispatched (i + 1) ((List.range i).map (backoffDelay p))
    | .transientError => retryGo p outcomes (i + 1) r

/-- Modelled from the spec: the Orchestration Router dispatch of an agent
action.  A BLOCK admission decision is never attempted or retried — it
escalates immediately; otherwise the action is attempted and retried up to
the policy's retry budget with exponential backoff, and exhausting the
budget escalates.  The router is not yet implemented. -/
def dispatchWithRetry (p : RetryPolicy) (adm : Decision)
    (outcomes : Nat → DispatchOutcome) : DispatchResult :=
  if isBlock adm then .blockedEscalated
  else retryGo p outcomes 0 p.max_retries

lemma retryGo_attempts (p : RetryPolicy) (outcomes : Nat → DispatchOutcome) :
    ∀ (r i : Nat), attemptsOf (retryGo p outcomes i r) ≤ i + r + 1 := by
  intro r
  induction r with
  | zero =>
    intro i
    cases h : outcomes i <;> simp [retryGo, h, attemptsOf]
  | succ r ih =>
    intro i
    cases h : outcomes i
    · simp only [retryGo, h, attemptsOf]
      omega
    · simp only [retryGo, h]
      have := ih (i + 1)
      omega

lemma retryGo_allfail (p : RetryPolicy) (outcomes : Nat → DispatchOutcome)
    (hff : ∀ j, outcomes j = .transientError) :
    ∀ (r i : Nat), retryGo p outcomes i r =
      .failedEscalated (i + r + 1)
        ((List.range (i + r)).map (backoffDelay p)) := by
  intro r
  induction r with
  | zero =>
    intro i
    simp [retryGo, hff i]
  | succ r ih =>
    intro i
    simp only [retryGo, hff i]
    rw [ih (i + 1)]
    rw [show i + 1 + r = i + (r + 1) from by omega]

/-- Claim C7: a failing dispatch is attempted at most max_retries + 1
times, so with the spec policy there are at most 3 retries; when the
outcome is a transient error every time and admission allowed the call,
the dispatch ends as failedEscalated after 4 attempts with the exponential
backoff delays 2s, 4s, 8s, the Task transitions to failed, and an
escalation is emitted; a BLOCK admission decision is never attempted or
retried and escalates immediately. -/
theorem router_retry_and_escalation (p : RetryPolicy) (adm : Decision)
    (outcomes : Nat → DispatchOutcome) (st : TaskStatus) :
    (attemptsOf (dispatchWithRetry p adm outcomes) ≤ p.max_retries + 1) ∧
    (attemptsOf (dispatchWithRetry specRetryPolicy adm outcomes) ≤ 4) ∧
    ((∀ j, outcomes j = .transientError) → isBlock adm = false →
      dispatchWithRetry specRetryPolicy adm outcomes =
        .failedEscalated 4 [2, 4, 8] ∧
      taskStatusAfter st (dispatchWithRetry specRetryPolicy adm outcomes) =
        .failed ∧
      escalated (dispatchWithRetry specRetryPolicy adm outcomes) = true) ∧
    (isBlock adm = true →
      dispatchWithRetry p adm outcomes = .blockedEscalated ∧
      attemptsOf (dispatchWithRetry p adm outcomes) = 0 ∧
      escalated (dispatchWithRetry p adm outcomes) = true) := by
  have hgen : ∀ (q : RetryPolicy),
      attemptsOf (dispatchWithRetry q adm outcomes) ≤ q.max_retries + 1 := by
    intro q
    unfold dispatchWithRetry
    by_cases hb : isBlock adm = true
    · rw [if_pos hb]
      simp [attemptsOf]
    · rw [if_neg hb]
      have := retryGo_attempts q outcomes q.max_retries 0
      omega
  refine ⟨hgen p, hgen specRetryPolicy, ?_, ?_⟩
  · intro hff hnb
    have hrun : dispatchWithRetry specRetryPolicy adm outcomes =
        .failedEscalated 4 [2, 4, 8] := by
      unfold dispatchWithRetry
      rw [if_neg (by simp [hnb])]
      rw [retryGo_allfail specRetryPolicy outcomes hff
        specRetryPolicy.max_retries 0]
      decide
    exact ⟨hrun, by rw [hrun]; rfl, by rw [hrun]; rfl⟩
  · intro hb
    have hrun : dispatchWithRetry p adm outcomes = .blockedEscalated := by
      unfold dispatchWithRetry
      rw [if_pos hb]
    exact ⟨hrun, by rw [hrun]; rfl, by rw [hrun]; rfl⟩

/-- Concrete check of C7: with every attempt failing and an ALLOW
admission, the dispatch fails after 4 attempts with delays 2, 4, 8 and
escalates; with a paused BLOCK it makes no attempt and escalates. -/
theorem router_retry_and_escalation_witness :
    dispatchWithRetry specRetryPolicy .allow (fun _ => .transientError) =
      .failedEscalated 4 [2, 4, 8] ∧
    dispatchWithRetry specRetryPolicy .blockPaused
      (fun _ => .transientError) = .blockedEscalated := by
  constructor
  · exact ((router_retry_and_escalation specRetryPolicy .allow
      (fun _ => .transientError) .in_progress).2.2.1
      (fun _ => rfl) (by decide)).1
  · exact ((router_retry_and_escalation specRetryPolicy .blockPaused
      (fun _ => .transientError) .in_progress).2.2.2 (by decide)).1

end MCC
